import Mathlib

/-!
# Verification of the OptiPick allocation and collision-resolution core

This file gives a shallow embedding, in Lean 4, of the parts of the
OptiPick warehouse system relevant to the stated properties:

* the data model (`src/models.py`): locations, products, agents, orders,
  zones, warehouses;
* the constraint checker (`src/constraints.py`);
* the greedy allocator (`src/allocation.py`, class `GreedyAllocation`);
* the collision detector and resolver (`src/routing.py`, class
  `CollisionDetector`).

Conventions of the embedding:

* Python `float` values are modelled as exact rationals `ℚ`.  Python's
  `round(x, n)` applies round-half-to-even; it is modelled by `pyRound`
  below acting on exact rationals.
* Python dictionaries keyed by agent id are modelled as association
  lists with Python's insertion semantics (`pyDictInsert`): inserting an
  existing key updates the value in place, keeping its position.
* Python's stable `sorted(xs, key=...)` is modelled by a stable
  insertion sort (`sortStable`) over a boolean total preorder.
* The French diagnostic strings returned by the constraint checker are
  abstracted to constructor tags (`Violation`); only which check failed
  matters, never the message text.
* Times of the form "HH:MM" are modelled as pairs `(h, m)`; with
  two-digit zero padding, Python's lexicographic comparison of such
  strings coincides with lexicographic comparison of the pairs.
-/

/-- Position `(x, y)` in the warehouse (`models.Location`). -/
structure Location where
  x : Int
  y : Int
deriving DecidableEq, Repr

/-- Manhattan distance (`Location.distance_to`). -/
def Location.distance_to (a b : Location) : Int :=
  (a.x - b.x).natAbs + (a.y - b.y).natAbs

/-- A product (`models.Product`).  Fields not consulted by the verified
code paths (name, category, frequency) are omitted. -/
structure Product where
  id : String
  weight : ℚ
  volume : ℚ
  location : Location
  fragile : Bool
  incompatible_with : List String
deriving DecidableEq, Repr

/-- `Product.is_compatible_with`: symmetric check that neither product
lists the other as incompatible. -/
def Product.is_compatible_with (p other : Product) : Bool :=
  !(p.incompatible_with.contains other.id) && !(other.incompatible_with.contains p.id)

/-- The three concrete agent classes `Robot`, `Human`, `Cart` of
`models.py`. -/
inductive AgentKind where
  | robot
  | human
  | cart
deriving DecidableEq, Repr

/-- The `restrictions` dictionary of an agent.  `none` for
`max_item_weight` models an absent key (Python default `float('inf')`);
`no_fragile` defaults to `False`, `no_zones` to `[]`. -/
structure Restrictions where
  no_zones : List String := []
  no_fragile : Bool := false
  max_item_weight : Option ℚ := none
deriving DecidableEq, Repr

/-- An agent together with its mutable per-pass state (`models.Agent`
and its subclasses).  `assigned_human` is `Cart.assigned_human`
(`none` for non-carts); `assigned_cart` is `Human.assigned_cart`
(`none` for non-humans).  Both are stored as agent ids, modelling the
non-owning Python references.  `assigned_orders` stores the committed
orders' ids. -/
structure Agent where
  id : String
  kind : AgentKind
  capacity_weight : ℚ
  capacity_volume : ℚ
  speed : ℚ
  cost_per_hour : ℚ
  restrictions : Restrictions := {}
  current_load_weight : ℚ := 0
  current_load_volume : ℚ := 0
  current_products : List Product := []
  assigned_orders : List String := []
  assigned_human : Option String := none
  assigned_cart : Option String := none
deriving DecidableEq, Repr

/-- `Agent.can_access_zone`: the zone (possibly `None`) is not listed in
`no_zones`. -/
def Agent.can_access_zone (a : Agent) (zone : Option String) : Bool :=
  match zone with
  | none => true
  | some z => !(a.restrictions.no_zones.contains z)

/-- `Agent.reset_load`: clear the mutable per-pass state. -/
def Agent.reset_load (a : Agent) : Agent :=
  { a with current_load_weight := 0, current_load_volume := 0,
           current_products := [], assigned_orders := [] }

/-- `Cart.is_operational`: a cart works only when paired with a human. -/
def Agent.is_operational (a : Agent) : Bool :=
  a.assigned_human.isSome

/-- An order item (`models.OrderItem`): product id, quantity, and the
resolved product reference (possibly `None`). -/
structure OrderItem where
  product_id : String
  quantity : ℕ
  product : Option Product := none
deriving DecidableEq, Repr

/-- An "HH:MM" time, as hours and minutes. -/
structure ClockTime where
  h : ℕ
  m : ℕ
deriving DecidableEq, Repr

/-- `ConstraintChecker._time_to_minutes`. -/
def ClockTime.toMinutes (t : ClockTime) : ℕ := t.h * 60 + t.m

/-- An order (`models.Order`).  `total_weight` / `total_volume` are the
stored derived fields (the code reads the stored values, it does not
re-derive them). -/
structure Order where
  id : String
  received_time : ClockTime
  deadline : ClockTime
  priority : String
  items : List OrderItem := []
  total_weight : ℚ := 0
  total_volume : ℚ := 0
  assigned_agent : Option String := none
deriving DecidableEq, Repr

/-- `Order.get_unique_locations`: first-occurrence list of the distinct
product locations of the order's resolved items. -/
def Order.get_unique_locations (o : Order) : List Location :=
  (o.items.filterMap (fun it => it.product.map (·.location))).dedup

/-- A warehouse zone (`models.Zone`). -/
structure Zone where
  name : String
  type : String
  coords : List Location
  restrictions : List String := []
deriving DecidableEq, Repr

/-- `Zone.contains`. -/
def Zone.containsLoc (z : Zone) (l : Location) : Bool :=
  z.coords.contains l

/-- The warehouse (`models.Warehouse`); zones are an insertion-ordered
dictionary, modelled as an association list. -/
structure Warehouse where
  width : ℕ
  height : ℕ
  entry_point : Location
  zones : List (String × Zone) := []
deriving DecidableEq, Repr

/-- `Warehouse.get_zone_at`: id of the first zone containing the
location. -/
def Warehouse.get_zone_at (w : Warehouse) (l : Location) : Option String :=
  (w.zones.find? (fun p => p.2.containsLoc l)).map (·.1)

/-! ## Generic helpers: stable sort, Python rounding, Python dicts -/

/-- Insert `x` into `ys` after every element `y` with `le y x` (stable
insertion for a total boolean preorder `le`). -/
def insertLe (le : α → α → Bool) (x : α) : List α → List α
  | [] => [x]
  | y :: t => if le y x then y :: insertLe le x t else x :: y :: t

/-- Stable sort, modelling Python's `sorted` with a key-derived total
preorder: elements are inserted left to right, each after all earlier
elements with an equal or smaller key. -/
def sortStable (le : α → α → Bool) (xs : List α) : List α :=
  xs.foldl (fun acc x => insertLe le x acc) []

/-- Round-half-to-even of a rational to an integer (the rounding of
Python's builtin `round`). -/
def roundHalfEven (q : ℚ) : ℤ :=
  let f : ℤ := ⌊q⌋
  let r : ℚ := q - f
  if r < 1/2 then f
  else if r > 1/2 then f + 1
  else if f % 2 = 0 then f else f + 1

/-- Python's `round(q, digits)` on exact rationals. -/
def pyRound (digits : ℕ) (q : ℚ) : ℚ :=
  (roundHalfEven (q * 10 ^ digits) : ℚ) / 10 ^ digits

/-- Python's `int(q)`: truncation toward zero. -/
def pyTruncInt (q : ℚ) : ℤ :=
  if 0 ≤ q then ⌊q⌋ else ⌈q⌉

/-- Python dict insertion on association lists: an existing key keeps
its position and gets the new value, a new key is appended. -/
def pyDictInsert (d : List (String × α)) (k : String) (v : α) : List (String × α) :=
  match d with
  | [] => [(k, v)]
  | (k', v') :: t => if k' = k then (k, v) :: t else (k', v') :: pyDictInsert t k v

/-- Dictionary lookup (first binding of the key). -/
def pyDictFind (d : List (String × α)) (k : String) : Option α :=
  (d.find? (fun p => p.1 = k)).map (·.2)

/-- Ordered pairs of a list: `(l[i], l[j])` for `i < j`, in the order of
the Python nested loops `for i, a1 in enumerate(l): for a2 in l[i+1:]`. -/
def orderedPairs : List α → List (α × α)
  | [] => []
  | x :: t => t.map (fun y => (x, y)) ++ orderedPairs t

/-! ## The constraint checker (`constraints.ConstraintChecker`)

Each check returns `Bool` (the Python pair `(ok, message)` with the
French message abstracted away); `can_assign_order` collects one
`Violation` tag per failed check, in the order of the source. -/

/-- Tags for the structured violations collected by
`can_assign_order` (constraints C1 to C5 of `constraints.py`). -/
inductive Violation where
  | capacity
  | incompatibleProducts
  | robotRestriction
  | cartUnpaired
  | deadline
deriving DecidableEq, Repr

/-- `ConstraintChecker.check_capacity`: current load plus the order's
stored totals must not exceed either capacity dimension. -/
def check_capacity (a : Agent) (o : Order) : Bool :=
  !(a.current_load_weight + o.total_weight > a.capacity_weight) &&
  !(a.current_load_volume + o.total_volume > a.capacity_volume)

/-- `ConstraintChecker.check_product_compatibility`: pairwise scan, ok
when every ordered pair is mutually compatible. -/
def check_product_compatibility (ps : List Product) : Bool :=
  (orderedPairs ps).all (fun pq => pq.1.is_compatible_with pq.2)

/-- `ConstraintChecker.check_order_compatibility`: compatibility of the
order's resolved products among themselves. -/
def check_order_compatibility (o : Order) : Bool :=
  check_product_compatibility (o.items.filterMap (·.product))

/-- `ConstraintChecker.check_agent_load_compatibility`: compatibility of
the products currently carried by the agent.  (Defined in the source
but never called by `can_assign_order`.) -/
def check_agent_load_compatibility (a : Agent) : Bool :=
  check_product_compatibility a.current_products

/-- `ConstraintChecker.check_robot_restrictions`: for robots only —
zone access, fragility, per-item weight cap. -/
def check_robot_restrictions (w : Warehouse) (a : Agent) (o : Order) : Bool :=
  if a.kind ≠ AgentKind.robot then true
  else
    (o.items.all (fun it =>
      match it.product with
      | none => true
      | some p => a.can_access_zone (w.get_zone_at p.location))) &&
    (!a.restrictions.no_fragile ||
      o.items.all (fun it =>
        match it.product with
        | none => true
        | some p => !p.fragile)) &&
    (match a.restrictions.max_item_weight with
     | none => true
     | some mw =>
       o.items.all (fun it =>
         match it.product with
         | none => true
         | some p => !(p.weight > mw)))

/-- `ConstraintChecker.check_cart_assignment`: a cart must have a paired
human; non-carts pass. -/
def check_cart_assignment (a : Agent) : Bool :=
  if a.kind ≠ AgentKind.cart then true else a.is_operational

/-- `ConstraintChecker.check_deadline_feasible`: travel estimate from
the entry point to each distinct pick location, plus 30 s per item,
must fit in the time remaining until the deadline. -/
def check_deadline_feasible (w : Warehouse) (a : Agent) (o : Order)
    (current_time_minutes : ℤ) : Bool :=
  let available : ℚ := (o.deadline.toMinutes : ℚ) - current_time_minutes
  let locs := o.get_unique_locations
  if locs = [] then true
  else
    let total_distance : ℚ := (locs.map (fun l => w.entry_point.distance_to l)).sum
    let travel_time := total_distance / a.speed / 60
    let picking_time : ℚ := o.items.length * (1/2)
    !(travel_time + picking_time > available)

/-- `ConstraintChecker.can_assign_order`: aggregate the five checks,
returning every violation found. -/
def can_assign_order (w : Warehouse) (a : Agent) (o : Order)
    (current_time_minutes : ℤ := 0) : Bool × List Violation :=
  let errors :=
    (if check_capacity a o then [] else [Violation.capacity]) ++
    (if check_order_compatibility o then [] else [Violation.incompatibleProducts]) ++
    (if a.kind = AgentKind.robot ∧ ¬check_robot_restrictions w a o then
      [Violation.robotRestriction] else []) ++
    (if a.kind = AgentKind.cart ∧ ¬check_cart_assignment a then
      [Violation.cartUnpaired] else []) ++
    (if check_deadline_feasible w a o current_time_minutes then [] else [Violation.deadline])
  (errors.isEmpty, errors)

/-! ## The greedy allocator (`allocation.GreedyAllocation.allocate`) -/

/-- Numeric kind rank of the Python dict
`agent_priority = {Robot: 1, Human: 2, Cart: 3}`. -/
def agentPriority : AgentKind → ℕ
  | AgentKind.robot => 1
  | AgentKind.human => 2
  | AgentKind.cart => 3

/-- Agent sort preorder: `key=lambda a: (agent_priority[type(a)],
a.cost_per_hour)`. -/
def agentLe (a b : Agent) : Bool :=
  agentPriority a.kind < agentPriority b.kind ||
    (agentPriority a.kind = agentPriority b.kind && a.cost_per_hour ≤ b.cost_per_hour)

/-- Order sort preorder: `key=lambda o: (0 if o.priority == 'express'
else 1, o.deadline)` with the deadline compared lexicographically. -/
def orderLe (o p : Order) : Bool :=
  let pr : Order → ℕ := fun o => if o.priority = "express" then 0 else 1
  let dl : Order → ℕ × ℕ := fun o => (o.deadline.h, o.deadline.m)
  pr o < pr p ||
    (pr o = pr p &&
      ((dl o).1 < (dl p).1 || ((dl o).1 = (dl p).1 && (dl o).2 ≤ (dl p).2)))

/-- Commit an order to an agent (the successful branch of the
allocation loop): append the order, add its stored totals to the load,
and append each item's product `quantity` times. -/
def commitOrder (a : Agent) (o : Order) : Agent :=
  { a with
    assigned_orders := a.assigned_orders ++ [o.id],
    current_load_weight := a.current_load_weight + o.total_weight,
    current_load_volume := a.current_load_volume + o.total_volume,
    current_products := a.current_products ++
      (o.items.flatMap (fun it =>
        match it.product with
        | none => []
        | some p => List.replicate it.quantity p)) }

/-- One allocation step: offer `o` to the agents of `ags` following the
precomputed sorted index order `idxs`; commit to the first that passes
`can_assign_order`, otherwise record the order as failed. -/
def allocStep (w : Warehouse) (ags : List Agent) (idxs : List ℕ) (o : Order) :
    List Agent × Option ℕ :=
  match idxs.find? (fun i =>
    match ags.get? i with
    | some a => (can_assign_order w a o).1
    | none => false) with
  | some i =>
    match ags.get? i with
    | some a => (ags.set i (commitOrder a o), some i)
    | none => (ags, none)
  | none => (ags, none)

/-- The sorted agent scan: `sorted(agents, key=...)`, computed once per
pass over the reset agents, as the list of sorted `(index, agent)`
pairs into the (position-preserving) agent state list. -/
def agentScan (ags : List Agent) : List (ℕ × Agent) :=
  sortStable (fun p q => agentLe p.2 q.2) ags.enum

/-- The index order in which each order is offered to the agents. -/
def agentScanOrder (ags : List Agent) : List ℕ :=
  (agentScan ags).map Prod.fst

/-- The agent states after the reset and after each of the first `n`
sorted orders have been processed (the reachable states of one
`GreedyAllocation.allocate` pass). -/
def allocStates (w : Warehouse) (agents : List Agent) (orders : List Order)
    (n : ℕ) : List Agent :=
  let ags0 := agents.map Agent.reset_load
  let sortedOrders := sortStable orderLe orders
  let idxs := agentScanOrder ags0
  (sortedOrders.take n).foldl (fun ags o => (allocStep w ags idxs o).1) ags0

/-- Result of `GreedyAllocation.allocate`: the successful
`(order_id, agent_id)` assignments, the failed order ids, and the final
agent states (mutated in place in Python, returned explicitly here). -/
structure AllocResult where
  successful : List (String × String)
  failed : List String
  agents : List Agent
deriving Repr

/-- `GreedyAllocation.allocate`: reset every agent, sort orders
(express first, then by deadline) and agents (by kind rank then hourly
cost, computed once), then first-fit commit each order. -/
def allocate (w : Warehouse) (agents : List Agent) (orders : List Order) :
    AllocResult :=
  let ags0 := agents.map Agent.reset_load
  let sortedOrders := sortStable orderLe orders
  let idxs := agentScanOrder ags0
  let step := fun (acc : AllocResult) (o : Order) =>
    match allocStep w acc.agents idxs o with
    | (ags2, some i) =>
      let aid := match ags2.get? i with | some a => a.id | none => ""
      ⟨acc.successful ++ [(o.id, aid)], acc.failed, ags2⟩
    | (_, none) => ⟨acc.successful, acc.failed ++ [o.id], acc.agents⟩
  sortedOrders.foldl step ⟨[], [], ags0⟩

/-! ## The collision detector (`routing.CollisionDetector`) -/

/-- One timestamped route step as consumed by the detector (the fields
of a `detailed_route` entry read by `_build_timeline` and
`resolve_with_delays`). -/
structure RouteStep where
  location : Location
  arrival_time_seconds : ℚ
  departure_time_seconds : ℚ
  is_picking : Bool
deriving DecidableEq, Repr

/-- One agent's planned route result (the fields of the
`optimize_agent_route` dictionary read by the detector). -/
structure RouteResult where
  agent_id : String
  agent_type : AgentKind
  route : List RouteStep
  total_time_minutes : ℚ
deriving DecidableEq, Repr

/-- `CollisionDetector._finish_time`: departure of the last step. -/
def finish_time (tl : List RouteStep) : ℚ :=
  match tl.getLast? with
  | some s => s.departure_time_seconds
  | none => 0

/-- Scan of `CollisionDetector._state_at` over the timeline: at a stop
whose `[arrival, departure]` interval contains `t`, the agent is at that
stop; strictly between a departure and the next arrival it is reported
at the *next* stop's location, not picking. -/
def state_at_scan (t : ℚ) : List RouteStep → Option (Location × Bool)
  | [] => none
  | [s] =>
    if s.arrival_time_seconds ≤ t ∧ t ≤ s.departure_time_seconds then
      some (s.location, s.is_picking)
    else none
  | s :: s2 :: rest =>
    if s.arrival_time_seconds ≤ t ∧ t ≤ s.departure_time_seconds then
      some (s.location, s.is_picking)
    else if s.departure_time_seconds < t ∧ t < s2.arrival_time_seconds then
      some (s2.location, false)
    else state_at_scan t (s2 :: rest)

/-- `CollisionDetector._state_at`: `None` after the finish time, else
the timeline scan. -/
def state_at (tl : List RouteStep) (finish t : ℚ) : Option (Location × Bool) :=
  if t > finish then none else state_at_scan t tl

/-- The per-agent timelines dictionary (`timelines` in
`detect_collisions`), with Python dict overwrite semantics. -/
def timelinesOf (rr : List RouteResult) : List (String × List RouteStep) :=
  rr.foldl (fun d r => pyDictInsert d r.agent_id r.route) []

/-- `agent_ids = list(timelines.keys())`. -/
def agentIdsOf (rr : List RouteResult) : List String :=
  (timelinesOf rr).map Prod.fst

/-- The sampled state of one agent at time `t` (lookup in the
timelines dictionary, then `_state_at` with that agent's finish
time). -/
def stateOf (rr : List RouteResult) (aid : String) (t : ℚ) :
    Option (Location × Bool) :=
  match pyDictFind (timelinesOf rr) aid with
  | some tl => state_at tl (finish_time tl) t
  | none => none

/-- `max(finish_times.values())` (the values in key order; `0` for the
empty dictionary, unreachable in `detect_collisions`). -/
def maxFinishOf (rr : List RouteResult) : ℚ :=
  match (timelinesOf rr).map (fun p => finish_time p.2) with
  | [] => 0
  | f :: fs => fs.foldl max f

/-- The entry point used by the detector: first location of the first
nonempty route. -/
def entryOf (rr : List RouteResult) : Option Location :=
  match rr.find? (fun r => !r.route.isEmpty) with
  | some r => (r.route.head?).map (·.location)
  | none => none

/-- Conflict type tag. -/
inductive ConflictType where
  | vertex
  | edge
deriving DecidableEq, Repr

/-- A detected conflict (the dictionaries appended by
`detect_collisions`). -/
structure Conflict where
  ctype : ConflictType
  time : ℚ
  agents : List String
  location : Option Location
deriving DecidableEq, Repr

/-- Number of iterations of the vertex-conflict sampling loop
`t = 0.0; while t <= max_time: ...; t += time_step` (for a positive
step; a non-positive step makes the Python loop diverge). -/
def numVertexSamples (step maxT : ℚ) : ℕ :=
  if maxT < 0 then 0 else (⌊maxT / step⌋).toNat + 1

/-- Number of iterations of the edge-conflict loop
`while t + time_step <= max_time`. -/
def numEdgeSamples (step maxT : ℚ) : ℕ :=
  if maxT < step then 0 else (⌊maxT / step⌋).toNat

/-- The vertex conflicts recorded for the ordered agent pair `(a1, a2)`
at sample time `t`: both states defined, same location, location not
the entry point, not both picking. -/
def vertexHit (rr : List RouteResult) (entry : Option Location) (t : ℚ)
    (pr : String × String) : Option Conflict :=
  match stateOf rr pr.1 t, stateOf rr pr.2 t with
  | some (l1, p1), some (l2, p2) =>
    if l1 = l2 ∧ entry ≠ some l1 ∧ ¬(p1 ∧ p2) then
      some ⟨ConflictType.vertex, pyRound 1 t, [pr.1, pr.2], some l1⟩
    else none
  | _, _ => none

/-- All vertex conflicts recorded at sample index `k`. -/
def vertexConflictsAt (step : ℚ) (rr : List RouteResult) (k : ℕ) : List Conflict :=
  (orderedPairs (agentIdsOf rr)).filterMap (vertexHit rr (entryOf rr) (k * step))

/-- The full (pre-deduplication) vertex-conflict list. -/
def vertexConflicts (step : ℚ) (rr : List RouteResult) : List Conflict :=
  (List.range (numVertexSamples step (maxFinishOf rr))).flatMap
    (vertexConflictsAt step rr)

/-- The edge conflict recorded for the ordered pair `(a1, a2)` in the
interval `[t, t + step]`: all four states defined, neither picking at
`t`, reciprocal swap of locations, swap cell not the entry point. -/
def edgeHit (rr : List RouteResult) (entry : Option Location) (step t : ℚ)
    (pr : String × String) : Option Conflict :=
  match stateOf rr pr.1 t, stateOf rr pr.1 (t + step),
        stateOf rr pr.2 t, stateOf rr pr.2 (t + step) with
  | some (l1n, p1n), some (l1x, _), some (l2n, p2n), some (l2x, _) =>
    if p1n ∨ p2n then none
    else if l1n = l2x ∧ l2n = l1x ∧ entry ≠ some l1n then
      some ⟨ConflictType.edge, pyRound 1 t, [pr.1, pr.2], none⟩
    else none
  | _, _, _, _ => none

/-- All edge conflicts recorded at sample index `k`. -/
def edgeConflictsAt (step : ℚ) (rr : List RouteResult) (k : ℕ) : List Conflict :=
  (orderedPairs (agentIdsOf rr)).filterMap (edgeHit rr (entryOf rr) step (k * step))

/-- The full (pre-deduplication) edge-conflict list. -/
def edgeConflicts (step : ℚ) (rr : List RouteResult) : List Conflict :=
  (List.range (numEdgeSamples step (maxFinishOf rr))).flatMap
    (edgeConflictsAt step rr)

/-- De-duplication key: `(type, tuple(sorted(agents)), int(time / 5))`. -/
def conflictKey (c : Conflict) : ConflictType × List String × ℤ :=
  (c.ctype, sortStable (fun a b => decide (a ≤ b)) c.agents, pyTruncInt (c.time / 5))

/-- Collapse conflicts sharing a key, keeping first occurrences. -/
def dedupConflicts (cs : List Conflict) : List Conflict :=
  (cs.foldl
    (fun (acc : List Conflict × List (ConflictType × List String × ℤ)) c =>
      if acc.2.contains (conflictKey c) then acc
      else (acc.1 ++ [c], acc.2 ++ [conflictKey c]))
    ([], [])).1

/-- `CollisionDetector.detect_collisions`. -/
def detect_collisions (step : ℚ) (rr : List RouteResult) : List Conflict :=
  if rr.isEmpty then []
  else dedupConflicts (vertexConflicts step rr ++ edgeConflicts step rr)

/-! ## The resolver (`routing.CollisionDetector.resolve_with_delays`) -/

/-- `routing.START_STAGGER_SECONDS`, also the fixed delay increment of
the resolver. -/
def START_STAGGER_SECONDS : ℚ := 10

/-- Resolver iteration bound (`max_iterations = 50`). -/
def MAX_ITERATIONS : ℕ := 50

/-- Values of the results dictionary, in key order. -/
def valuesOf (d : List (String × α)) : List α := d.map (·.2)

/-- The per-step delay applied by the resolver: steps arriving at or
after the conflict time have arrival and departure shifted by the delay
increment (re-rounded to 2 digits, as in the source). -/
def delayStep (T : ℚ) (s : RouteStep) : RouteStep :=
  if s.arrival_time_seconds ≥ T then
    { s with
      arrival_time_seconds := pyRound 2 (s.arrival_time_seconds + START_STAGGER_SECONDS),
      departure_time_seconds := pyRound 2 (s.departure_time_seconds + START_STAGGER_SECONDS) }
  else s

/-- Delay agent `aid` in the results dictionary from time `T` on, and
recompute its `total_time_minutes` from the last departure (an absent
`aid` leaves the dictionary unchanged, the `continue` branch). -/
def applyDelayTo (d : List (String × RouteResult)) (aid : String) (T : ℚ) :
    List (String × RouteResult) :=
  d.map (fun p =>
    if p.1 = aid then
      let route2 := p.2.route.map (delayStep T)
      let ttm2 := match route2.getLast? with
        | some last => pyRound 2 (last.departure_time_seconds / 60)
        | none => p.2.total_time_minutes
      (p.1, { p.2 with route := route2, total_time_minutes := ttm2 })
    else p)

/-- The resolver's main loop.  State: the results dictionary, the best
observed conflict count, the best observed state (the saved copy holds
the routes and total times; all other fields are immutable), and — as a
ghost output used only by the statements below — the list of conflict
counts observed so far. -/
def resolveLoop (step : ℚ) :
    ℕ → List (String × RouteResult) → ℕ → List (String × RouteResult) →
    List ℕ →
    List (String × RouteResult) × ℕ × List (String × RouteResult) × List ℕ
  | 0, S, bc, bs, obs => (S, bc, bs, obs)
  | n + 1, S, bc, bs, obs =>
    let cs := detect_collisions step (valuesOf S)
    let obs2 := obs ++ [cs.length]
    match cs.filter (fun c => c.ctype = ConflictType.vertex) with
    | [] => (S, bc, bs, obs2)
    | c :: _ =>
      let bc2 := if cs.length < bc then cs.length else bc
      let bs2 := if cs.length < bc then S else bs
      let S2 := applyDelayTo S (c.agents.getD 1 "") c.time
      resolveLoop step n S2 bc2 bs2 obs2

/-- Roll back to the best observed state: each agent's route and total
time are restored from the saved copy (identity on agents absent from
the copy, which does not happen). -/
def restoreBest (S bs : List (String × RouteResult)) :
    List (String × RouteResult) :=
  S.map (fun p =>
    match pyDictFind bs p.1 with
    | some b => (p.1, ⟨p.2.agent_id, p.2.agent_type, b.route, b.total_time_minutes⟩)
    | none => p)

/-- The initial results dictionary `{r['agent_id']: r}`. -/
def resultsById (rr : List RouteResult) : List (String × RouteResult) :=
  rr.foldl (fun d r => pyDictInsert d r.agent_id r) []

/-- `CollisionDetector.resolve_with_delays`: iterate bounded delay
injection; afterwards, if the final state has more conflicts than the
best observed state, roll back to the best state. -/
def resolve_with_delays (step : ℚ) (rr : List RouteResult) : List RouteResult :=
  let d0 := resultsById rr
  let c0 := (detect_collisions step (valuesOf d0)).length
  let r := resolveLoop step MAX_ITERATIONS d0 c0 d0 [c0]
  let fin := (detect_collisions step (valuesOf r.1)).length
  if fin > r.2.1 then valuesOf (restoreBest r.1 r.2.2.1) else valuesOf r.1

/-- Ghost observation list of one `resolve_with_delays` run: the
initial conflict count followed by the count recomputed at the head of
each executed loop iteration. -/
def observedCounts (step : ℚ) (rr : List RouteResult) : List ℕ :=
  let d0 := resultsById rr
  let c0 := (detect_collisions step (valuesOf d0)).length
  (resolveLoop step MAX_ITERATIONS d0 c0 d0 [c0]).2.2.2

/-! ## Concrete demonstration inputs (used by witnesses and
counterexamples) -/

/-- A warehouse with entry at the origin and no zones. -/
def demoWh : Warehouse := ⟨10, 8, ⟨0, 0⟩, []⟩

/-- A light product at `(1,1)`. -/
def pUSB : Product := ⟨"P001", 1/2, 1, ⟨1, 1⟩, false, []⟩

/-- A standard order of two units of `pUSB` (stored totals 1 kg,
2 dm³). -/
def oStd : Order := ⟨"O001", ⟨8, 0⟩, ⟨10, 0⟩, "standard", [⟨"P001", 2, some pUSB⟩], 1, 2, none⟩

/-- A cheap robot. -/
def rob : Agent :=
  { id := "R1", kind := AgentKind.robot, capacity_weight := 20,
    capacity_volume := 30, speed := 2, cost_per_hour := 5 }

/-- An expensive human. -/
def hum : Agent :=
  { id := "H1", kind := AgentKind.human, capacity_weight := 35,
    capacity_volume := 50, speed := 3/2, cost_per_hour := 25 }

/-- An unpaired cart, cheaper per hour than the human. -/
def crt : Agent :=
  { id := "C1", kind := AgentKind.cart, capacity_weight := 50,
    capacity_volume := 80, speed := 6/5, cost_per_hour := 3 }

/-- A product that declares `pB` incompatible. -/
def pA : Product := ⟨"PA", 1, 1, ⟨1, 1⟩, false, ["PB"]⟩

/-- A product symmetrically incompatible with `pA` (via `pA`'s list). -/
def pB : Product := ⟨"PB", 1, 1, ⟨2, 1⟩, false, []⟩

/-- The human agent already carrying `pA`. -/
def humLoaded : Agent := { hum with current_products := [pA] }

/-- An order containing only `pB`. -/
def oB : Order := ⟨"O2", ⟨8, 0⟩, ⟨18, 0⟩, "standard", [⟨"PB", 1, some pB⟩], 1, 1, none⟩

/-- An agent declared with a negative weight capacity. -/
def negCapAgent : Agent :=
  { id := "X", kind := AgentKind.robot, capacity_weight := -1,
    capacity_volume := 30, speed := 1, cost_per_hour := 1 }

/-- The robot's final state in the demonstration allocation. -/
def demoFinalRobot : Agent := commitOrder (Agent.reset_load rob) oStd

/-- Modelled from the spec: the walk along a Manhattan segment from `a`
towards `b`, `d` cells in (first along x, then along y) — the
"intermediate cell of the segment" the specified interpolation should
produce.  This code does not exist in `src/`; `_state_at` never
interpolates. -/
def walkManhattan (a b : Location) (d : ℕ) : Location :=
  let dx := (b.x - a.x).natAbs
  let sx : Int := if a.x ≤ b.x then 1 else -1
  let sy : Int := if a.y ≤ b.y then 1 else -1
  if d ≤ dx then ⟨a.x + sx * d, a.y⟩
  else ⟨b.x, a.y + sy * (d - dx)⟩

/-- Modelled from the spec: "at a sample time strictly between one
stop's departure and the next stop's arrival, the agent's sampled
location is an intermediate cell of the segment proportional to the
elapsed travel time" — the cell reached after the elapsed fraction of
the segment's Manhattan distance. -/
def spec_interp_location (a b : Location) (dep arr t : ℚ) : Location :=
  walkManhattan a b
    (⌊(t - dep) / (arr - dep) * ((a.distance_to b : ℤ) : ℚ)⌋).toNat

/-- A two-stop timeline: departure from `(0,0)` at `t = 0`, arrival at
`(4,0)` at `t = 4`. -/
def tlSeg : List RouteStep := [⟨⟨0, 0⟩, 0, 0, false⟩, ⟨⟨4, 0⟩, 4, 4, false⟩]

/-- Demonstration route of a robot: entry `(0,0)` at time 0, then the
cell `(1,1)` at time 10 (finish 10). -/
def demoR1route : List RouteStep :=
  [⟨⟨0, 0⟩, 0, 0, false⟩, ⟨⟨1, 1⟩, 10, 10, false⟩]

/-- Demonstration route of a human: the cell `(1,1)` at time 10 only. -/
def demoH1route : List RouteStep :=
  [⟨⟨1, 1⟩, 10, 10, false⟩]

/-- Two routes that meet at `(1,1)` at time 10: the robot is listed
first, the human second. -/
def demoRoutes : List RouteResult :=
  [⟨"R1", AgentKind.robot, demoR1route, 1/6⟩,
   ⟨"H1", AgentKind.human, demoH1route, 1/6⟩]

/-- The immutable part of a results dictionary: key, agent id and agent
type per entry (routes and total times are the mutable part). -/
def dictSkeleton (d : List (String × RouteResult)) :
    List (String × String × AgentKind) :=
  d.map (fun p => (p.1, p.2.agent_id, p.2.agent_type))


/-! ## Stable-sort lemmas -/

lemma mem_insertLe {le : α → α → Bool} {x y : α} :
    ∀ {l : List α}, y ∈ insertLe le x l ↔ y = x ∨ y ∈ l := by
  intro l
  induction l with
  | nil => simp [insertLe]
  | cons z t ih =>
    by_cases h : le z x = true
    · rw [insertLe, if_pos h]
      simp only [List.mem_cons, ih]
      tauto
    · rw [insertLe, if_neg h]
      simp only [List.mem_cons]

lemma pairwise_insertLe {le : α → α → Bool}
    (htot : ∀ a b, le a b = true ∨ le b a = true)
    (htrans : ∀ a b c, le a b = true → le b c = true → le a c = true)
    (x : α) : ∀ {l : List α}, l.Pairwise (fun a b => le a b = true) →
      (insertLe le x l).Pairwise (fun a b => le a b = true) := by
  intro l
  induction l with
  | nil => simp [insertLe]
  | cons z t ih =>
    intro hp
    rcases List.pairwise_cons.mp hp with ⟨hz, ht⟩
    by_cases h : le z x = true
    · rw [insertLe, if_pos h]
      refine List.pairwise_cons.mpr ⟨?_, ih ht⟩
      intro y hy
      rcases mem_insertLe.mp hy with rfl | hy
      · exact h
      · exact hz y hy
    · rw [insertLe, if_neg h]
      have hxz : le x z = true := (htot z x).resolve_left h
      refine List.pairwise_cons.mpr ⟨?_, hp⟩
      intro y hy
      rcases List.mem_cons.mp hy with rfl | hy
      · exact hxz
      · exact htrans x z y hxz (hz y hy)

lemma pairwise_sortStable {le : α → α → Bool}
    (htot : ∀ a b, le a b = true ∨ le b a = true)
    (htrans : ∀ a b c, le a b = true → le b c = true → le a c = true)
    (xs : List α) :
    (sortStable le xs).Pairwise (fun a b => le a b = true) := by
  suffices h : ∀ (acc : List α), acc.Pairwise (fun a b => le a b = true) →
      (xs.foldl (fun acc x => insertLe le x acc) acc).Pairwise
        (fun a b => le a b = true) by
    exact h [] (by simp)
  induction xs with
  | nil => intro acc h; simpa using h
  | cons x t ih =>
    intro acc h
    exact ih (insertLe le x acc) (pairwise_insertLe htot htrans x h)

lemma agentLe_total (a b : Agent) : agentLe a b = true ∨ agentLe b a = true := by
  unfold agentLe
  rcases Nat.lt_trichotomy (agentPriority a.kind) (agentPriority b.kind) with h | h | h
  · left; simp [h]
  · rcases le_total a.cost_per_hour b.cost_per_hour with hc | hc
    · left; simp [h, hc]
    · right; simp [h.symm, hc]
  · right; simp [h]

lemma agentLe_trans (a b c : Agent) (hab : agentLe a b = true)
    (hbc : agentLe b c = true) : agentLe a c = true := by
  unfold agentLe at *
  simp only [Bool.or_eq_true, Bool.and_eq_true, decide_eq_true_eq] at *
  rcases hab with h1 | ⟨h1, h1c⟩ <;> rcases hbc with h2 | ⟨h2, h2c⟩
  · exact Or.inl (h1.trans h2)
  · exact Or.inl (h2 ▸ h1)
  · exact Or.inl (h1 ▸ h2)
  · exact Or.inr ⟨h1.trans h2, h1c.trans h2c⟩

/-! ## Claim C2 — agent scan order -/

/-- C2 (amended): in `GreedyAllocation.allocate` the agents are sorted
once per pass by kind rank robot < human < cart (from
`agent_priority = {Robot: 1, Human: 2, Cart: 3}`), with ties within a
kind broken by ascending hourly cost, and each order is offered to
agents in exactly that order; in particular every Human is tried before
every Cart.  (The claim's stated rank robot < cart < human, with every
Cart tried before every Human, does not match the code.) -/
theorem c2_agent_scan_order (ags : List Agent) :
    ((agentScan ags).Pairwise (fun p q => agentLe p.2 q.2 = true)) ∧
    ((agentScan ags).Pairwise (fun p q =>
      ¬(p.2.kind = AgentKind.cart ∧ q.2.kind = AgentKind.human))) := by
  have h := @pairwise_sortStable (ℕ × Agent) (fun p q => agentLe p.2 q.2)
    (fun a b => agentLe_total a.2 b.2) (fun a b c => agentLe_trans a.2 b.2 c.2)
    ags.enum
  refine ⟨h, h.imp ?_⟩
  intro p q hle hk
  simp [agentLe, hk.1, hk.2, agentPriority] at hle

/-- C2 (counterexample): with an expensive human listed before a cheap
unpaired cart and a robot, the computed agent scan order is robot, then
human, then cart — the Human is tried before the Cart, refuting the
claimed kind rank robot < cart < human. -/
theorem c2_counterexample :
    (agentScan ([hum, crt, rob].map Agent.reset_load)).map (fun p => p.2.kind) =
      [AgentKind.robot, AgentKind.human, AgentKind.cart] := by decide

/-! ## Claim C3 — cross-load incompatibility is not checked -/

/-- C3 (amended): `ConstraintChecker.can_assign_order` never consults
the agent's already-carried products: its result is invariant under any
change of `agent.current_products`, so a symmetric incompatibility
between an order's product and a carried product neither causes failure
nor appears in the violation list.  (The aggregation checks capacity,
in-order compatibility, robot restrictions, cart pairing and deadline
only.) -/
theorem c3_cross_load_ignored (w : Warehouse) (a : Agent) (o : Order)
    (t : ℤ) (ps ps2 : List Product) :
    can_assign_order w { a with current_products := ps } o t =
    can_assign_order w { a with current_products := ps2 } o t := rfl

/-- C3 (counterexample): the human carries `pA`, the order holds `pB`,
`pA` and `pB` are symmetrically incompatible, yet `can_assign_order`
succeeds with an empty violation list. -/
theorem c3_counterexample :
    (can_assign_order demoWh humLoaded oB 0).1 = true ∧
    (can_assign_order demoWh humLoaded oB 0).2 = [] ∧
    humLoaded.current_products = [pA] ∧
    oB.items.filterMap (·.product) = [pB] ∧
    pA.is_compatible_with pB = false := by with_unfolding_all decide

/-! ## Allocation-fold lemmas -/

lemma allocStep_none {w : Warehouse} {ags : List Agent} {idxs : List ℕ}
    {o : Order} (h : (allocStep w ags idxs o).2 = none) :
    (allocStep w ags idxs o).1 = ags := by
  unfold allocStep at *
  split at h
  · split at h
    · simp at h
    · rfl
  · rfl

lemma allocStep_mem {w : Warehouse} {ags : List Agent} {idxs : List ℕ}
    {o : Order} {a : Agent} (ha : a ∈ (allocStep w ags idxs o).1) :
    a ∈ ags ∨ ∃ b ∈ ags, (can_assign_order w b o).1 = true ∧
      a = commitOrder b o := by
  unfold allocStep at ha
  split at ha
  case h_2 => exact Or.inl ha
  case h_1 i hf =>
    have hp := List.find?_some hf
    split at ha
    case h_2 => exact Or.inl ha
    case h_1 b hg =>
      rw [hg] at hp
      rcases List.mem_or_eq_of_mem_set ha with h | rfl
      · exact Or.inl h
      · exact Or.inr ⟨b, List.get?_mem hg, hp, rfl⟩

lemma foldl_allocStep_invariant {w : Warehouse} {idxs : List ℕ}
    (P : Agent → Prop)
    (hstep : ∀ b o, P b → (can_assign_order w b o).1 = true →
      P (commitOrder b o)) :
    ∀ (os : List Order) (ags : List Agent), (∀ a ∈ ags, P a) →
      ∀ a ∈ os.foldl (fun ags o => (allocStep w ags idxs o).1) ags, P a := by
  intro os
  induction os with
  | nil => intro ags h; simpa using h
  | cons o t ih =>
    intro ags h
    simp only [List.foldl_cons]
    refine ih _ ?_
    intro a ha
    rcases allocStep_mem ha with h1 | ⟨b, hb, hca, rfl⟩
    · exact h a h1
    · exact hstep b o (h b hb) hca

lemma allocResult_step_agents (w : Warehouse) (idxs : List ℕ)
    (acc : AllocResult) (o : Order) :
    (match allocStep w acc.agents idxs o with
      | (ags2, some i) =>
        let aid := match ags2.get? i with | some a => a.id | none => ""
        (⟨acc.successful ++ [(o.id, aid)], acc.failed, ags2⟩ : AllocResult)
      | (_, none) => ⟨acc.successful, acc.failed ++ [o.id], acc.agents⟩).agents =
    (allocStep w acc.agents idxs o).1 := by
  rcases h : allocStep w acc.agents idxs o with ⟨ags2, oi⟩
  cases oi with
  | none =>
    have := @allocStep_none w acc.agents idxs o (by rw [h])
    rw [h] at this
    simpa using this.symm
  | some i => simp

lemma allocate_agents (w : Warehouse) (agents : List Agent)
    (orders : List Order) :
    (allocate w agents orders).agents =
      (sortStable orderLe orders).foldl
        (fun ags o =>
          (allocStep w ags (agentScanOrder (agents.map Agent.reset_load)) o).1)
        (agents.map Agent.reset_load) := by
  unfold allocate
  generalize sortStable orderLe orders = l
  suffices h : ∀ (acc : AllocResult),
      (l.foldl (fun acc o =>
        match allocStep w acc.agents (agentScanOrder (agents.map Agent.reset_load)) o with
        | (ags2, some i) =>
          let aid := match ags2.get? i with | some a => a.id | none => ""
          (⟨acc.successful ++ [(o.id, aid)], acc.failed, ags2⟩ : AllocResult)
        | (_, none) => ⟨acc.successful, acc.failed ++ [o.id], acc.agents⟩) acc).agents =
      l.foldl (fun ags o =>
        (allocStep w ags (agentScanOrder (agents.map Agent.reset_load)) o).1)
        acc.agents by
    exact h ⟨[], [], agents.map Agent.reset_load⟩
  induction l with
  | nil => intro acc; rfl
  | cons o t ih =>
    intro acc
    simp only [List.foldl_cons]
    rw [ih, allocResult_step_agents]

lemma can_assign_capacity {w : Warehouse} {a : Agent} {o : Order} {t : ℤ}
    (h : (can_assign_order w a o t).1 = true) : check_capacity a o = true := by
  by_contra hc
  simp [can_assign_order, hc] at h

lemma can_assign_cart_check {w : Warehouse} {a : Agent} {o : Order} {t : ℤ}
    (h : (can_assign_order w a o t).1 = true) (hk : a.kind = AgentKind.cart) :
    check_cart_assignment a = true := by
  by_contra hc
  simp [can_assign_order, hc, hk] at h

lemma check_capacity_le {a : Agent} {o : Order}
    (h : check_capacity a o = true) :
    a.current_load_weight + o.total_weight ≤ a.capacity_weight ∧
    a.current_load_volume + o.total_volume ≤ a.capacity_volume := by
  simp only [check_capacity, Bool.and_eq_true, Bool.not_eq_true',
    decide_eq_false_iff_not, not_lt] at h
  exact h

/-! ## Claim C1 — committed loads respect capacity -/

/-- C1 (amended): after `GreedyAllocation.allocate` returns, every
agent whose capacity dimensions are nonnegative satisfies
`current_load_weight ≤ capacity_weight` and
`current_load_volume ≤ capacity_volume`; and any agent that received at
least one order satisfies both bounds unconditionally, since every
commit passes `check_capacity`.  (The nonnegativity proviso is forced:
an agent declared with a negative capacity and no committed orders
keeps its reset load `0`, which exceeds the negative capacity.) -/
theorem c1_capacity_after_allocate (w : Warehouse) (agents : List Agent)
    (orders : List Order) :
    ∀ a ∈ (allocate w agents orders).agents,
      (0 ≤ a.capacity_weight → a.current_load_weight ≤ a.capacity_weight) ∧
      (0 ≤ a.capacity_volume → a.current_load_volume ≤ a.capacity_volume) ∧
      (a.assigned_orders ≠ [] →
        a.current_load_weight ≤ a.capacity_weight ∧
        a.current_load_volume ≤ a.capacity_volume) := by
  have hmain : ∀ a ∈ (allocate w agents orders).agents,
      (a.assigned_orders = [] ∧ a.current_load_weight = 0 ∧
        a.current_load_volume = 0) ∨
      (a.current_load_weight ≤ a.capacity_weight ∧
        a.current_load_volume ≤ a.capacity_volume) := by
    rw [allocate_agents]
    refine foldl_allocStep_invariant _ ?_ _ _ ?_
    · intro b o _ hca
      rcases check_capacity_le (can_assign_capacity hca) with ⟨h1, h2⟩
      exact Or.inr ⟨h1, h2⟩
    · intro a ha
      rcases List.mem_map.mp ha with ⟨b, _, rfl⟩
      exact Or.inl ⟨rfl, rfl, rfl⟩
  intro a ha
  rcases hmain a ha with ⟨h0, h1, h2⟩ | ⟨h1, h2⟩
  · exact ⟨fun hw => h1 ▸ hw, fun hv => h2 ▸ hv, fun hne => absurd h0 hne⟩
  · exact ⟨fun _ => h1, fun _ => h2, fun _ => ⟨h1, h2⟩⟩

/-- C1 (counterexample): with a (degenerate) agent whose declared
`capacity_weight` is negative and no orders at all, the post-allocation
load `0` exceeds the capacity, so the claim as stated — for *every*
warehouse, agent list and order list — fails. -/
theorem c1_counterexample :
    ((allocate demoWh [negCapAgent] []).agents.all
      (fun a => a.current_load_weight ≤ a.capacity_weight)) = false := by
  with_unfolding_all decide

/-- C1 (witness): concrete run of the amended theorem — the robot that
received the demonstration order has a nonempty assignment list and
ends within both capacity bounds, through the unconditional branch. -/
theorem c1_witness :
    demoFinalRobot ∈ (allocate demoWh [hum, crt, rob] [oStd]).agents ∧
    demoFinalRobot.assigned_orders ≠ [] ∧
    demoFinalRobot.current_load_weight ≤ demoFinalRobot.capacity_weight ∧
    demoFinalRobot.current_load_volume ≤ demoFinalRobot.capacity_volume := by
  have hmem : demoFinalRobot ∈ (allocate demoWh [hum, crt, rob] [oStd]).agents := by
    with_unfolding_all decide
  have hne : demoFinalRobot.assigned_orders ≠ [] := by
    with_unfolding_all decide
  have h := c1_capacity_after_allocate demoWh [hum, crt, rob] [oStd]
    demoFinalRobot hmem
  exact ⟨hmem, hne, (h.2.2 hne).1, (h.2.2 hne).2⟩

/-! ## Claim C7 — an unpaired cart never holds an order -/

/-- C7: in every state reachable through one `GreedyAllocation.allocate`
pass (after the initial reset and after each processed order), a Cart
whose `assigned_human` is `None` has an empty `assigned_orders` list:
the allocator never commits an order to an unpaired Cart, because
`check_cart_assignment` rejects it and pairings are never modified
during the pass. -/
theorem c7_unpaired_cart_no_orders (w : Warehouse) (agents : List Agent)
    (orders : List Order) (n : ℕ) :
    ∀ a ∈ allocStates w agents orders n,
      a.kind = AgentKind.cart → a.assigned_human = none →
        a.assigned_orders = [] := by
  have hmain : ∀ a ∈ allocStates w agents orders n,
      a.kind = AgentKind.cart → a.assigned_human = none →
        a.assigned_orders = [] := by
    unfold allocStates
    refine foldl_allocStep_invariant
      (fun a => a.kind = AgentKind.cart → a.assigned_human = none →
        a.assigned_orders = []) ?_ _ _ ?_
    · intro b o _ hca hk hh
      have hk2 : b.kind = AgentKind.cart := hk
      have hh2 : b.assigned_human = none := hh
      have hcart := can_assign_cart_check hca hk2
      rw [check_cart_assignment, if_neg (by simp [hk2])] at hcart
      rw [Agent.is_operational, hh2] at hcart
      simp at hcart
    · intro a ha
      rcases List.mem_map.mp ha with ⟨b, _, rfl⟩
      intro _ _
      rfl
  exact hmain

/-- C7 (witness): the unpaired demonstration cart, present in the state
after the first order is processed, indeed holds no orders. -/
theorem c7_witness :
    Agent.reset_load crt ∈ allocStates demoWh [crt, hum] [oStd] 1 ∧
    (Agent.reset_load crt).assigned_orders = [] := by
  have hmem : Agent.reset_load crt ∈ allocStates demoWh [crt, hum] [oStd] 1 := by
    with_unfolding_all decide
  exact ⟨hmem,
    c7_unpaired_cart_no_orders demoWh [crt, hum] [oStd] 1
      (Agent.reset_load crt) hmem rfl rfl⟩

/-! ## Claim C8 — no auto-pairing of carts -/

lemma list_set_self {α : Type} : ∀ (l : List α) (i : ℕ) (a : α),
    l.get? i = some a → l.set i a = l := by
  intro l
  induction l with
  | nil => intro i a h; simp at h
  | cons x t ih =>
    intro i a h
    cases i with
    | zero => simp at h; simp [h]
    | succ j =>
      simp only [List.get?_cons_succ] at h
      simp [List.set_cons_succ, ih j a h]

lemma allocStep_preserves_pairing {w : Warehouse} {ags : List Agent}
    {idxs : List ℕ} {o : Order} :
    ((allocStep w ags idxs o).1).map (fun a => (a.assigned_human, a.assigned_cart)) =
      ags.map (fun a => (a.assigned_human, a.assigned_cart)) := by
  unfold allocStep
  split
  case h_2 => rfl
  case h_1 i hf =>
    split
    case h_2 => rfl
    case h_1 b hg =>
      rw [List.map_set]
      refine list_set_self _ i _ ?_
      rw [List.get?_map, hg]
      rfl

/-- C8 (amended): `GreedyAllocation.allocate` performs no auto-pairing
whatsoever — it contains no pairing step, and every agent's
`assigned_human` and `assigned_cart` references are exactly as the
caller provided them; consequently a Cart that enters the pass unpaired
stays unpaired even when an unassigned Human exists. -/
theorem c8_no_auto_pairing (w : Warehouse) (agents : List Agent)
    (orders : List Order) :
    ((allocate w agents orders).agents).map
        (fun a => (a.assigned_human, a.assigned_cart)) =
      agents.map (fun a => (a.assigned_human, a.assigned_cart)) := by
  rw [allocate_agents]
  generalize sortStable orderLe orders = l
  have hreset : (agents.map Agent.reset_load).map
      (fun a => (a.assigned_human, a.assigned_cart)) =
      agents.map (fun a => (a.assigned_human, a.assigned_cart)) := by
    rw [List.map_map]
    rfl
  rw [← hreset]
  generalize agents.map Agent.reset_load = ags0
  generalize agentScanOrder ags0 = idxs
  induction l generalizing ags0 with
  | nil => rfl
  | cons o t ih =>
    simp only [List.foldl_cons]
    rw [ih, allocStep_preserves_pairing]

/-- C8 (counterexample): an unpaired cart listed together with an
unassigned human; after `allocate` the cart's `assigned_human` (and the
human's `assigned_cart`) are still `None` — the claimed auto-pairing
step does not exist in the code. -/
theorem c8_counterexample :
    (allocate demoWh [crt, hum] []).agents.map
        (fun a => (a.kind, a.assigned_human, a.assigned_cart)) =
      [(AgentKind.cart, none, none), (AgentKind.human, none, none)] := by
  with_unfolding_all decide

/-! ## Claim C9 — no interpolation: travel samples snap to the next
stop -/

lemma chain_head_lt :
    ∀ (tl : List RouteStep) (a : RouteStep),
      List.Chain' (fun p q =>
        p.departure_time_seconds < q.arrival_time_seconds) (a :: tl) →
      (∀ s ∈ a :: tl, s.arrival_time_seconds ≤ s.departure_time_seconds) →
      ∀ (j : ℕ) (u : RouteStep), tl.get? j = some u →
        a.departure_time_seconds < u.arrival_time_seconds := by
  intro tl
  induction tl with
  | nil => intro a _ _ j u h; simp at h
  | cons b t2 ih =>
    intro a hch hwf j u hj
    rcases List.chain'_cons.mp hch with ⟨hab, htail⟩
    cases j with
    | zero =>
      simp only [List.get?_cons_zero, Option.some_inj] at hj
      subst hj
      exact hab
    | succ j2 =>
      have hbu := ih b htail (fun x hx => hwf x (List.mem_cons_of_mem a hx))
        j2 u (by simpa using hj)
      have hbb : b.arrival_time_seconds ≤ b.departure_time_seconds :=
        hwf b (by simp)
      linarith

lemma scan_gap {t : ℚ} :
    ∀ (i : ℕ) (tl : List RouteStep) (si si1 : RouteStep),
      List.Chain' (fun p q =>
        p.departure_time_seconds < q.arrival_time_seconds) tl →
      (∀ s ∈ tl, s.arrival_time_seconds ≤ s.departure_time_seconds) →
      tl.get? i = some si → tl.get? (i + 1) = some si1 →
      si.departure_time_seconds < t → t < si1.arrival_time_seconds →
      state_at_scan t tl = some (si1.location, false) := by
  intro i
  induction i with
  | zero =>
    intro tl si si1 hch hwf hi hi1 h1 h2
    cases tl with
    | nil => simp at hi
    | cons s tail =>
      simp only [List.get?_cons_zero, Option.some_inj] at hi
      subst hi
      cases tail with
      | nil => simp [List.get?] at hi1
      | cons s2 rest =>
        simp only [List.get?_cons_succ, List.get?_cons_zero,
          Option.some_inj] at hi1
        subst hi1
        rw [state_at_scan, if_neg (by intro h; exact absurd h.2 (not_le.mpr h1)),
          if_pos ⟨h1, h2⟩]
  | succ j ih =>
    intro tl si si1 hch hwf hi hi1 h1 h2
    cases tl with
    | nil => simp at hi
    | cons s tail =>
      simp only [List.get?_cons_succ] at hi hi1
      cases tail with
      | nil => simp [List.get?] at hi
      | cons s2 rest =>
        have hs_lt : s.departure_time_seconds < si.arrival_time_seconds :=
          chain_head_lt (s2 :: rest) s hch hwf j si hi
      -- the sample time lies strictly after every departure up to stop i
        have hsi_wf : si.arrival_time_seconds ≤ si.departure_time_seconds :=
          hwf si (List.mem_cons_of_mem s (List.get?_mem hi))
        rcases List.chain'_cons.mp hch with ⟨hss2, htail⟩
        have hs2_lt : s2.departure_time_seconds < t := by
          cases j with
          | zero =>
            simp only [List.get?_cons_zero, Option.some_inj] at hi
            subst hi
            exact h1
          | succ j2 =>
            have := chain_head_lt rest s2 htail
              (fun x hx => hwf x (List.mem_cons_of_mem s hx)) j2 si
              (by simpa using hi)
            linarith
        have hs2_wf : s2.arrival_time_seconds ≤ s2.departure_time_seconds :=
          hwf s2 (by simp)
        rw [state_at_scan]
        rw [if_neg (by intro h; nlinarith), if_neg (by intro h; nlinarith)]
        exact ih (s2 :: rest) si si1 htail
          (fun x hx => hwf x (List.mem_cons_of_mem s hx)) hi hi1 h1 h2

/-- C9 (amended): the timeline sampling does *not* interpolate: for a
chronologically well-formed timeline, at any sample time strictly
between one stop's departure and the next stop's arrival (and not past
the finish time), `_state_at` reports the agent already at the *next
stop's* location with the picking flag cleared — never at an
intermediate cell of the Manhattan segment. -/
theorem c9_travel_snaps_to_next_stop (tl : List RouteStep) (fin t : ℚ)
    (i : ℕ) (si si1 : RouteStep)
    (hch : List.Chain' (fun a b =>
      a.departure_time_seconds < b.arrival_time_seconds) tl)
    (hwf : ∀ s ∈ tl, s.arrival_time_seconds ≤ s.departure_time_seconds)
    (hi : tl.get? i = some si) (hi1 : tl.get? (i + 1) = some si1)
    (h1 : si.departure_time_seconds < t) (h2 : t < si1.arrival_time_seconds)
    (hfin : t ≤ fin) :
    state_at tl fin t = some (si1.location, false) := by
  rw [state_at, if_neg (not_lt.mpr hfin)]
  exact scan_gap i tl si si1 hch hwf hi hi1 h1 h2

/-- C9 (counterexample): at `t = 1`, a quarter of the way along the
segment `(0,0) → (4,0)`, the specified interpolation yields the
intermediate cell `(1,0)`, but `_state_at` reports the agent already at
the destination `(4,0)` — the sampling never interpolates. -/
theorem c9_counterexample :
    state_at tlSeg (finish_time tlSeg) 1 = some (⟨4, 0⟩, false) ∧
    spec_interp_location ⟨0, 0⟩ ⟨4, 0⟩ 0 4 1 = ⟨1, 0⟩ ∧
    (⟨4, 0⟩ : Location) ≠ ⟨1, 0⟩ := by
  with_unfolding_all decide

/-- C9 (witness): the amended theorem applied to the concrete segment
timeline: at `t = 1` the sampled state is the next stop `(4,0)`, not
picking. -/
theorem c9_witness :
    state_at tlSeg (finish_time tlSeg) 1 = some ((⟨4, 0⟩ : Location), false) :=
  c9_travel_snaps_to_next_stop tlSeg (finish_time tlSeg) 1 0
    ⟨⟨0, 0⟩, 0, 0, false⟩ ⟨⟨4, 0⟩, 4, 4, false⟩
    (by
      show List.Chain' _
        (⟨⟨0, 0⟩, 0, 0, false⟩ :: ⟨⟨4, 0⟩, 4, 4, false⟩ :: ([] : List RouteStep))
      refine List.chain'_cons.mpr ⟨?_, List.chain'_singleton _⟩
      show (0 : ℚ) < 4
      norm_num)
    (by
      intro s hs
      simp only [tlSeg, List.mem_cons, List.not_mem_nil, or_false] at hs
      rcases hs with rfl | rfl <;> norm_num)
    rfl rfl
    (by with_unfolding_all decide)
    (by with_unfolding_all decide)
    (by with_unfolding_all decide)

/-! ## Claim C10 — agents vanish after their finish time -/

lemma mem_dedupConflicts {c : Conflict} {l : List Conflict}
    (h : c ∈ dedupConflicts l) : c ∈ l := by
  unfold dedupConflicts at h
  suffices haux : ∀ (l : List Conflict)
      (acc : List Conflict × List (ConflictType × List String × ℤ)),
      c ∈ (l.foldl
        (fun acc c =>
          if acc.2.contains (conflictKey c) then acc
          else (acc.1 ++ [c], acc.2 ++ [conflictKey c])) acc).1 →
      c ∈ acc.1 ∨ c ∈ l by
    rcases haux l ([], []) h with h2 | h2
    · simp at h2
    · exact h2
  intro l
  induction l with
  | nil => intro acc h2; exact Or.inl h2
  | cons d t ih =>
    intro acc h2
    simp only [List.foldl_cons] at h2
    by_cases hk : acc.2.contains (conflictKey d)
    · rw [if_pos hk] at h2
      rcases ih acc h2 with h3 | h3
      · exact Or.inl h3
      · exact Or.inr (List.mem_cons_of_mem d h3)
    · rw [if_neg hk] at h2
      rcases ih _ h2 with h3 | h3
      · rcases List.mem_append.mp h3 with h4 | h4
        · exact Or.inl h4
        · simp only [List.mem_singleton] at h4
          exact Or.inr (h4 ▸ List.mem_cons_self d t)
      · exact Or.inr (List.mem_cons_of_mem d h3)

lemma stateOf_some {rr : List RouteResult} {aid : String} {t : ℚ}
    (h : stateOf rr aid t ≠ none) :
    ∃ tl, pyDictFind (timelinesOf rr) aid = some tl ∧ t ≤ finish_time tl := by
  unfold stateOf at h
  rcases hf : pyDictFind (timelinesOf rr) aid with _ | tl
  · rw [hf] at h; simp at h
  · rw [hf] at h
    dsimp only at h
    refine ⟨tl, rfl, ?_⟩
    by_contra hgt
    unfold state_at at h
    rw [if_pos (show t > finish_time tl from not_le.mp hgt)] at h
    exact h rfl

lemma vertexHit_spec {rr : List RouteResult} {entry : Option Location}
    {t : ℚ} {pr : String × String} {c : Conflict}
    (h : vertexHit rr entry t pr = some c) :
    c.time = pyRound 1 t ∧ c.agents = [pr.1, pr.2] ∧
    stateOf rr pr.1 t ≠ none ∧ stateOf rr pr.2 t ≠ none := by
  unfold vertexHit at h
  split at h
  case h_1 l1 p1 l2 p2 hs1 hs2 =>
    split at h
    · rcases Option.some_inj.mp h with rfl
      exact ⟨rfl, rfl, by rw [hs1]; simp, by rw [hs2]; simp⟩
    · simp at h
  case h_2 => simp at h

lemma edgeHit_spec {rr : List RouteResult} {entry : Option Location}
    {step t : ℚ} {pr : String × String} {c : Conflict}
    (h : edgeHit rr entry step t pr = some c) :
    c.time = pyRound 1 t ∧ c.agents = [pr.1, pr.2] ∧
    stateOf rr pr.1 t ≠ none ∧ stateOf rr pr.2 t ≠ none := by
  unfold edgeHit at h
  split at h
  case h_1 l1n p1n l1x q1 l2n p2n l2x q2 hs1 hs1x hs2 hs2x =>
    split at h
    · simp at h
    · split at h
      · rcases Option.some_inj.mp h with rfl
        exact ⟨rfl, rfl, by rw [hs1]; simp, by rw [hs2]; simp⟩
      · simp at h
  case h_2 => simp at h

lemma detect_time_bound {step : ℚ} {rr : List RouteResult} {c : Conflict}
    (hc : c ∈ detect_collisions step rr) :
    ∀ aid ∈ c.agents, ∃ (k : ℕ) (tl : List RouteStep),
      pyDictFind (timelinesOf rr) aid = some tl ∧
      (k : ℚ) * step ≤ finish_time tl ∧ c.time = pyRound 1 ((k : ℚ) * step) := by
  intro aid haid
  unfold detect_collisions at hc
  split at hc
  · simp at hc
  · have hmem := mem_dedupConflicts hc
    rcases List.mem_append.mp hmem with hv | he
    · unfold vertexConflicts at hv
      rcases List.mem_flatMap.mp hv with ⟨k, _, hk2⟩
      rcases List.mem_filterMap.mp hk2 with ⟨pr, _, hhit⟩
      rcases vertexHit_spec hhit with ⟨htime, hagents, hs1, hs2⟩
      have : aid = pr.1 ∨ aid = pr.2 := by
        rw [hagents] at haid
        simpa using haid
      rcases this with rfl | rfl
      · rcases stateOf_some hs1 with ⟨tl, hf, hle⟩
        exact ⟨k, tl, hf, hle, htime⟩
      · rcases stateOf_some hs2 with ⟨tl, hf, hle⟩
        exact ⟨k, tl, hf, hle, htime⟩
    · unfold edgeConflicts at he
      rcases List.mem_flatMap.mp he with ⟨k, _, hk2⟩
      rcases List.mem_filterMap.mp hk2 with ⟨pr, _, hhit⟩
      rcases edgeHit_spec hhit with ⟨htime, hagents, hs1, hs2⟩
      have : aid = pr.1 ∨ aid = pr.2 := by
        rw [hagents] at haid
        simpa using haid
      rcases this with rfl | rfl
      · rcases stateOf_some hs1 with ⟨tl, hf, hle⟩
        exact ⟨k, tl, hf, hle, htime⟩
      · rcases stateOf_some hs2 with ⟨tl, hf, hle⟩
        exact ⟨k, tl, hf, hle, htime⟩

/-- C10: an agent is treated as having left the warehouse after its
final departure: (i) for a non-empty timeline, `_state_at` is `None` at
every time strictly past the finish time; (ii) every conflict reported
by `detect_collisions` (vertex or edge) arises at a sample time
`k · time_step` that is at most the finish time of each involved
agent's timeline — no conflict involves an agent after it finishes its
tour. -/
theorem c10_agent_leaves_after_finish (step : ℚ) (rr : List RouteResult) :
    (∀ (tl : List RouteStep) (t : ℚ), tl ≠ [] → finish_time tl < t →
      state_at tl (finish_time tl) t = none) ∧
    (∀ c ∈ detect_collisions step rr, ∀ aid ∈ c.agents,
      ∃ (k : ℕ) (tl : List RouteStep),
        pyDictFind (timelinesOf rr) aid = some tl ∧
        (k : ℚ) * step ≤ finish_time tl ∧
        c.time = pyRound 1 ((k : ℚ) * step)) := by
  constructor
  · intro tl t _ hgt
    unfold state_at
    rw [if_pos hgt]
  · intro c hc
    exact detect_time_bound hc

/-- C10 (witness): concrete instances — the demonstration robot's
timeline samples to `None` at `t = 11`, past its finish time `10`; and
the one detected conflict of the demonstration routes arises at sample
time `10`, within both agents' finish times. -/
theorem c10_witness :
    state_at demoR1route (finish_time demoR1route) 11 = none :=
  (c10_agent_leaves_after_finish 10 demoRoutes).1 demoR1route 11
    (by with_unfolding_all decide)
    (by with_unfolding_all decide)

/-! ## Claim C6 — the vertex-conflict rule -/

lemma vertexHit_eq_some_iff {rr : List RouteResult} {entry : Option Location}
    {t : ℚ} {pr : String × String} {c : Conflict} :
    vertexHit rr entry t pr = some c ↔
    ∃ (l : Location) (p1 p2 : Bool),
      stateOf rr pr.1 t = some (l, p1) ∧ stateOf rr pr.2 t = some (l, p2) ∧
      entry ≠ some l ∧ ¬(p1 = true ∧ p2 = true) ∧
      c = ⟨ConflictType.vertex, pyRound 1 t, [pr.1, pr.2], some l⟩ := by
  constructor
  · intro h
    unfold vertexHit at h
    split at h
    case h_1 l1 p1 l2 p2 hs1 hs2 =>
      split at h
      case isTrue hg =>
        rcases hg with ⟨heq, hent, hpick⟩
        rcases Option.some_inj.mp h with rfl
        exact ⟨l1, p1, p2, hs1, heq ▸ hs2, hent, hpick, rfl⟩
      case isFalse => simp at h
    case h_2 => simp at h
  · rintro ⟨l, p1, p2, hs1, hs2, hent, hpick, rfl⟩
    unfold vertexHit
    rw [hs1, hs2]
    dsimp only
    rw [if_pos ⟨rfl, hent, hpick⟩]

lemma edgeHit_location {rr : List RouteResult} {entry : Option Location}
    {step t : ℚ} {pr : String × String} {c : Conflict}
    (h : edgeHit rr entry step t pr = some c) : c.location = none := by
  unfold edgeHit at h
  split at h
  case h_1 =>
    split at h
    · simp at h
    · split at h
      · rcases Option.some_inj.mp h with rfl
        rfl
      · simp at h
  case h_2 => simp at h

/-- C6: `detect_collisions` records a vertex conflict for an ordered
agent pair at a sampled time exactly when both agents' sampled states
are defined and at the same location, that location is not the entry
point, and the two agents are not both picking; the final output is the
de-duplication (by type, unordered pair and 5-second window) of the
vertex and edge records; and no conflict in the output ever carries the
entry-point location.  In particular, two agents both picking at the
same cell produce no vertex conflict. -/
theorem c6_vertex_conflict_rule (step : ℚ) (rr : List RouteResult) :
    (detect_collisions step rr = if rr.isEmpty then [] else
      dedupConflicts (vertexConflicts step rr ++ edgeConflicts step rr)) ∧
    (vertexConflicts step rr =
      (List.range (numVertexSamples step (maxFinishOf rr))).flatMap
        (vertexConflictsAt step rr)) ∧
    (∀ (k : ℕ) (a1 a2 : String), (a1, a2) ∈ orderedPairs (agentIdsOf rr) →
      ((∃ c ∈ vertexConflictsAt step rr k, c.agents = [a1, a2]) ↔
        ∃ (l : Location) (p1 p2 : Bool),
          stateOf rr a1 ((k : ℚ) * step) = some (l, p1) ∧
          stateOf rr a2 ((k : ℚ) * step) = some (l, p2) ∧
          entryOf rr ≠ some l ∧ ¬(p1 = true ∧ p2 = true))) ∧
    (∀ c ∈ detect_collisions step rr, ∀ l : Location, c.location = some l →
      entryOf rr ≠ some l) := by
  refine ⟨rfl, rfl, ?_, ?_⟩
  · intro k a1 a2 hpr
    constructor
    · rintro ⟨c, hc, hag⟩
      rcases List.mem_filterMap.mp hc with ⟨pr, _, hhit⟩
      rcases vertexHit_eq_some_iff.mp hhit with
        ⟨l, p1, p2, hs1, hs2, hent, hpick, rfl⟩
      have h1 : pr.1 = a1 ∧ pr.2 = a2 := by
        simpa using hag
      rcases h1 with ⟨h1, h2⟩
      rw [h1] at hs1
      rw [h2] at hs2
      exact ⟨l, p1, p2, hs1, hs2, hent, hpick⟩
    · rintro ⟨l, p1, p2, hs1, hs2, hent, hpick⟩
      refine ⟨⟨ConflictType.vertex, pyRound 1 ((k : ℚ) * step), [a1, a2], some l⟩,
        ?_, rfl⟩
      refine List.mem_filterMap.mpr ⟨(a1, a2), hpr, ?_⟩
      exact vertexHit_eq_some_iff.mpr ⟨l, p1, p2, hs1, hs2, hent, hpick, rfl⟩
  · intro c hc l hl
    unfold detect_collisions at hc
    split at hc
    · simp at hc
    · have hmem := mem_dedupConflicts hc
      rcases List.mem_append.mp hmem with hv | he
      · unfold vertexConflicts at hv
        rcases List.mem_flatMap.mp hv with ⟨k, _, hk2⟩
        rcases List.mem_filterMap.mp hk2 with ⟨pr, _, hhit⟩
        rcases vertexHit_eq_some_iff.mp hhit with
          ⟨l2, p1, p2, _, _, hent, _, rfl⟩
        rcases Option.some_inj.mp hl with rfl
        exact hent
      · unfold edgeConflicts at he
        rcases List.mem_flatMap.mp he with ⟨k, _, hk2⟩
        rcases List.mem_filterMap.mp hk2 with ⟨pr, _, hhit⟩
        rw [edgeHit_location hhit] at hl
        simp at hl

/-- C6 (witness): the characterization applied to the demonstration
routes at sample index 1 and the pair `("R1", "H1")`: both agents
sample to `(1,1)`, not picking, away from the entry `(0,0)`, and a
vertex conflict for the pair is indeed recorded there. -/
theorem c6_witness :
    ∃ c ∈ vertexConflictsAt 10 demoRoutes 1, c.agents = ["R1", "H1"] :=
  ((c6_vertex_conflict_rule 10 demoRoutes).2.2.1 1 "R1" "H1"
    (by with_unfolding_all decide)).mpr
    ⟨⟨1, 1⟩, false, false,
      by with_unfolding_all decide,
      by with_unfolding_all decide,
      by with_unfolding_all decide,
      by simp⟩

/-! ## Claim C4 — which agent is delayed -/

lemma orderedPairs_index {α : Type} {l : List α} {x y : α}
    (h : (x, y) ∈ orderedPairs l) :
    ∃ i j, i < j ∧ l.get? i = some x ∧ l.get? j = some y := by
  induction l with
  | nil => simp [orderedPairs] at h
  | cons a t ih =>
    rw [orderedPairs] at h
    rcases List.mem_append.mp h with h1 | h1
    · rcases List.mem_map.mp h1 with ⟨b, hb, heq⟩
      have hx : a = x := congrArg Prod.fst heq
      have hy : b = y := congrArg Prod.snd heq
      rcases List.mem_iff_get?.mp hb with ⟨j, hj⟩
      exact ⟨0, j + 1, Nat.succ_pos j, by rw [← hx]; rfl,
        by simpa [hy] using hj⟩
    · rcases ih h1 with ⟨i, j, hij, hi, hj⟩
      exact ⟨i + 1, j + 1, by omega, by simpa using hi, by simpa using hj⟩

lemma detect_pair_exists {step : ℚ} {rr : List RouteResult} {c : Conflict}
    (hc : c ∈ detect_collisions step rr) :
    ∃ pr ∈ orderedPairs (agentIdsOf rr), c.agents = [pr.1, pr.2] := by
  unfold detect_collisions at hc
  split at hc
  · simp at hc
  · have hmem := mem_dedupConflicts hc
    rcases List.mem_append.mp hmem with hv | he
    · unfold vertexConflicts at hv
      rcases List.mem_flatMap.mp hv with ⟨k, _, hk2⟩
      rcases List.mem_filterMap.mp hk2 with ⟨pr, hpr, hhit⟩
      rcases vertexHit_eq_some_iff.mp hhit with ⟨l, p1, p2, _, _, _, _, rfl⟩
      exact ⟨pr, hpr, rfl⟩
    · unfold edgeConflicts at he
      rcases List.mem_flatMap.mp he with ⟨k, _, hk2⟩
      rcases List.mem_filterMap.mp hk2 with ⟨pr, hpr, hhit⟩
      exact ⟨pr, hpr, (edgeHit_spec hhit).2.1⟩

/-- C4 (amended): the agent whose later steps are shifted is
`conflict['agents'][1]` — the agent that appears *later in the input
route order* of the conflicting pair, irrespective of agent kind: (i)
every detected conflict's pair `[a1, a2]` satisfies `a1` before `a2` in
the input id order; (ii) applying the delay leaves every other agent's
entry untouched and replaces the targeted agent's route by shifting
exactly the steps with `arrival ≥ conflict time` by the fixed increment
(10 s), updating its total route time from the new last departure.
(The claimed priority rule human > cart > robot does not exist in the
code.) -/
theorem c4_delay_targets_second_agent (step T : ℚ) (rr : List RouteResult)
    (d : List (String × RouteResult)) (aid : String) :
    (∀ c ∈ detect_collisions step rr, ∃ i j, i < j ∧
      (agentIdsOf rr).get? i = some (c.agents.getD 0 "") ∧
      (agentIdsOf rr).get? j = some (c.agents.getD 1 "")) ∧
    (∀ (n : ℕ) (p : String × RouteResult), d.get? n = some p → p.1 ≠ aid →
      (applyDelayTo d aid T).get? n = some p) ∧
    (∀ (n : ℕ) (p : String × RouteResult), d.get? n = some p → p.1 = aid →
      (applyDelayTo d aid T).get? n = some
        (p.1, { p.2 with
          route := p.2.route.map (delayStep T),
          total_time_minutes :=
            match (p.2.route.map (delayStep T)).getLast? with
            | some last => pyRound 2 (last.departure_time_seconds / 60)
            | none => p.2.total_time_minutes })) ∧
    (∀ s : RouteStep, (s.arrival_time_seconds ≥ T →
        delayStep T s = { s with
          arrival_time_seconds :=
            pyRound 2 (s.arrival_time_seconds + START_STAGGER_SECONDS),
          departure_time_seconds :=
            pyRound 2 (s.departure_time_seconds + START_STAGGER_SECONDS) }) ∧
      (¬ s.arrival_time_seconds ≥ T → delayStep T s = s)) := by
  refine ⟨?_, ?_, ?_, ?_⟩
  · intro c hc
    rcases detect_pair_exists hc with ⟨⟨x, y⟩, hpr, hag⟩
    rcases orderedPairs_index hpr with ⟨i, j, hij, hi, hj⟩
    exact ⟨i, j, hij, by rw [hag]; simpa [List.getD] using hi,
      by rw [hag]; simpa [List.getD] using hj⟩
  · intro n p hp hne
    unfold applyDelayTo
    rw [List.get?_map, hp]
    simp [if_neg hne]
  · intro n p hp heq
    unfold applyDelayTo
    rw [List.get?_map, hp]
    simp [heq]
  · intro s
    constructor
    · intro hge
      rw [delayStep, if_pos hge]
    · intro hlt
      rw [delayStep, if_neg hlt]

/-- C4 (counterexample): a robot (listed first) and a human (listed
second) meet at `(1,1)` at time 10.  The resolver shifts the *human* —
`conflict['agents'][1]`, the later agent in input order — by 10 s and
leaves the robot untouched, although the claimed kind order
human > cart > robot demands that the robot yield. -/
theorem c4_counterexample :
    (resolve_with_delays 10 demoRoutes).map
        (fun r => (r.agent_id, r.agent_type, r.route.map (·.arrival_time_seconds))) =
      [("R1", AgentKind.robot, [0, 10]), ("H1", AgentKind.human, [20])] := by
  with_unfolding_all decide

/-- C4 (witness): part (i) of the amended theorem evaluated on the
demonstration routes: the single detected conflict's pair is
`["R1", "H1"]` with `R1` at input position 0 and `H1` at position 1. -/
theorem c4_witness :
    ∃ i j, i < j ∧
      (agentIdsOf demoRoutes).get? i =
        some ((detect_collisions 10 demoRoutes).headD
          ⟨ConflictType.vertex, 0, [], none⟩ |>.agents.getD 0 "") ∧
      (agentIdsOf demoRoutes).get? j =
        some ((detect_collisions 10 demoRoutes).headD
          ⟨ConflictType.vertex, 0, [], none⟩ |>.agents.getD 1 "") :=
  (c4_delay_targets_second_agent 10 0 demoRoutes [] "").1
    ((detect_collisions 10 demoRoutes).headD ⟨ConflictType.vertex, 0, [], none⟩)
    (by with_unfolding_all decide)

/-! ## Claim C5 — the rollback never returns more conflicts than the
best observed state -/

lemma pyDictInsert_keys_mem {α : Type} {d : List (String × α)} {k x : String}
    {v : α} :
    x ∈ (pyDictInsert d k v).map Prod.fst ↔ x ∈ d.map Prod.fst ∨ x = k := by
  induction d with
  | nil => simp [pyDictInsert]
  | cons p t ih =>
    by_cases h : p.1 = k
    · rw [pyDictInsert, if_pos h]
      simp [h]
      tauto
    · rw [pyDictInsert, if_neg h]
      simp only [List.map_cons, List.mem_cons, ih]
      tauto

lemma pyDictInsert_keys_nodup {α : Type} {d : List (String × α)}
    (h : (d.map Prod.fst).Nodup) (k : String) (v : α) :
    ((pyDictInsert d k v).map Prod.fst).Nodup := by
  induction d with
  | nil => simp [pyDictInsert]
  | cons p t ih =>
    simp only [List.map_cons, List.nodup_cons] at h
    by_cases hk : p.1 = k
    · rw [pyDictInsert, if_pos hk]
      simp only [List.map_cons, List.nodup_cons]
      exact ⟨hk ▸ h.1, h.2⟩
    · rw [pyDictInsert, if_neg hk]
      simp only [List.map_cons, List.nodup_cons]
      refine ⟨?_, ih h.2⟩
      intro hmem
      rcases pyDictInsert_keys_mem.mp hmem with h2 | h2
      · exact h.1 h2
      · exact hk h2

lemma resultsById_keys_nodup (rr : List RouteResult) :
    ((resultsById rr).map Prod.fst).Nodup := by
  unfold resultsById
  suffices h : ∀ (l : List RouteResult) (acc : List (String × RouteResult)),
      (acc.map Prod.fst).Nodup →
      ((l.foldl (fun d r => pyDictInsert d r.agent_id r) acc).map Prod.fst).Nodup by
    exact h rr [] (by simp)
  intro l
  induction l with
  | nil => intro acc h; simpa using h
  | cons r t ih =>
    intro acc h
    exact ih _ (pyDictInsert_keys_nodup h r.agent_id r)

lemma pyDictFind_isSome_of_mem_keys {α : Type} {d : List (String × α)}
    {k : String} (h : k ∈ d.map Prod.fst) : (pyDictFind d k).isSome := by
  induction d with
  | nil => simp at h
  | cons p t ih =>
    by_cases hk : p.1 = k
    · unfold pyDictFind
      rw [List.find?_cons_of_pos _ (by simp [hk])]
      simp
    · simp only [List.map_cons, List.mem_cons] at h
      rcases h with h | h
      · exact absurd h.symm hk
      · unfold pyDictFind
        rw [List.find?_cons_of_neg _ (by simp [hk])]
        exact ih h

lemma pyDictFind_mem_self {α : Type} {d : List (String × α)}
    (hnd : (d.map Prod.fst).Nodup) {k : String} {v : α} (h : (k, v) ∈ d) :
    pyDictFind d k = some v := by
  induction d with
  | nil => simp at h
  | cons p t ih =>
    simp only [List.map_cons, List.nodup_cons] at hnd
    rcases List.mem_cons.mp h with rfl | hmem
    · unfold pyDictFind
      rw [List.find?_cons_of_pos _ (by simp)]
      rfl
    · by_cases hk : p.1 = k
      · exfalso
        apply hnd.1
        rw [hk]
        exact List.mem_map.mpr ⟨(k, v), hmem, rfl⟩
      · unfold pyDictFind
        rw [List.find?_cons_of_neg _ (by simp [hk])]
        exact ih hnd.2 hmem

lemma keys_of_skeleton {d e : List (String × RouteResult)}
    (h : dictSkeleton d = dictSkeleton e) :
    d.map Prod.fst = e.map Prod.fst := by
  have h2 := congrArg (List.map Prod.fst) h
  simpa [dictSkeleton, List.map_map, Function.comp] using h2

lemma applyDelayTo_skeleton (d : List (String × RouteResult)) (aid : String)
    (T : ℚ) : dictSkeleton (applyDelayTo d aid T) = dictSkeleton d := by
  unfold dictSkeleton applyDelayTo
  rw [List.map_map]
  refine List.map_congr_left ?_
  intro p _
  by_cases h : p.1 = aid <;> simp [h]

lemma restoreBest_congr {S S2 bs : List (String × RouteResult)}
    (hsk : dictSkeleton S = dictSkeleton S2)
    (hkeys : ∀ k ∈ S.map Prod.fst, (pyDictFind bs k).isSome) :
    restoreBest S bs = restoreBest S2 bs := by
  induction S generalizing S2 with
  | nil =>
    cases S2 with
    | nil => rfl
    | cons q t2 => simp [dictSkeleton] at hsk
  | cons p t ih =>
    cases S2 with
    | nil => simp [dictSkeleton] at hsk
    | cons q t2 =>
      simp only [dictSkeleton, List.map_cons, List.cons.injEq,
        Prod.mk.injEq] at hsk
      rcases hsk with ⟨⟨hk, hid, hty⟩, htail⟩
      have hsome : (pyDictFind bs p.1).isSome :=
        hkeys p.1 (by simp)
      rcases hfind : pyDictFind bs p.1 with _ | b
      · rw [hfind] at hsome; simp at hsome
      · unfold restoreBest
        simp only [List.map_cons]
        rw [hfind, ← hk, hfind]
        refine congrArg₂ List.cons ?_ ?_
        · simp [hk, hid, hty]
        · exact ih htail (fun k hk2 => hkeys k (by simp [hk2]))

lemma restoreBest_self {S : List (String × RouteResult)}
    (hnd : (S.map Prod.fst).Nodup) : restoreBest S S = S := by
  unfold restoreBest
  conv_rhs => rw [← List.map_id S]
  refine List.map_congr_left ?_
  intro p hp
  have hfind : pyDictFind S p.1 = some p.2 :=
    pyDictFind_mem_self hnd (by simpa using hp)
  rw [hfind]
  simp

lemma resolveLoop_succ (step : ℚ) (n : ℕ) (S bs : List (String × RouteResult))
    (bc : ℕ) (obs : List ℕ) :
    resolveLoop step (n + 1) S bc bs obs =
      match (detect_collisions step (valuesOf S)).filter
          (fun c => c.ctype = ConflictType.vertex) with
      | [] => (S, bc, bs, obs ++ [(detect_collisions step (valuesOf S)).length])
      | c :: _ =>
        resolveLoop step n (applyDelayTo S (c.agents.getD 1 "") c.time)
          (if (detect_collisions step (valuesOf S)).length < bc then
            (detect_collisions step (valuesOf S)).length else bc)
          (if (detect_collisions step (valuesOf S)).length < bc then S else bs)
          (obs ++ [(detect_collisions step (valuesOf S)).length]) := rfl

lemma resolveLoop_invariant (step : ℚ) (d0 : List (String × RouteResult))
    (hnd : (d0.map Prod.fst).Nodup) :
    ∀ (fuel : ℕ) (S bs : List (String × RouteResult)) (bc : ℕ) (obs : List ℕ),
      dictSkeleton S = dictSkeleton d0 →
      dictSkeleton bs = dictSkeleton d0 →
      (detect_collisions step (valuesOf (restoreBest S bs))).length = bc →
      (∀ m ∈ obs, bc ≤ m) →
      dictSkeleton (resolveLoop step fuel S bc bs obs).1 = dictSkeleton d0 ∧
      dictSkeleton (resolveLoop step fuel S bc bs obs).2.2.1 = dictSkeleton d0 ∧
      (detect_collisions step (valuesOf
        (restoreBest (resolveLoop step fuel S bc bs obs).1
          (resolveLoop step fuel S bc bs obs).2.2.1))).length =
        (resolveLoop step fuel S bc bs obs).2.1 ∧
      (∀ m ∈ (resolveLoop step fuel S bc bs obs).2.2.2,
        min (resolveLoop step fuel S bc bs obs).2.1
          (detect_collisions step
            (valuesOf (resolveLoop step fuel S bc bs obs).1)).length ≤ m) := by
  intro fuel
  induction fuel with
  | zero =>
    intro S bs bc obs h1 h2 h3 h4
    exact ⟨h1, h2, h3, fun m hm => le_trans (min_le_left _ _) (h4 m hm)⟩
  | succ n ih =>
    intro S bs bc obs h1 h2 h3 h4
    have hkeysS : S.map Prod.fst = d0.map Prod.fst := keys_of_skeleton h1
    have hkeysbs : bs.map Prod.fst = d0.map Prod.fst := keys_of_skeleton h2
    rcases hvc : (detect_collisions step (valuesOf S)).filter
        (fun c => c.ctype = ConflictType.vertex) with _ | ⟨c, rest⟩
    · have heq : resolveLoop step (n + 1) S bc bs obs =
          (S, bc, bs, obs ++ [(detect_collisions step (valuesOf S)).length]) := by
        rw [resolveLoop_succ, hvc]
      rw [heq]
      refine ⟨h1, h2, h3, ?_⟩
      intro m hm
      rcases List.mem_append.mp hm with hm | hm
      · exact le_trans (min_le_left _ _) (h4 m hm)
      · simp only [List.mem_singleton] at hm
        exact hm ▸ min_le_right _ _
    · have hskS2 : dictSkeleton (applyDelayTo S (c.agents.getD 1 "") c.time) =
          dictSkeleton d0 := by
        rw [applyDelayTo_skeleton]; exact h1
      have hkeysS2 : (applyDelayTo S (c.agents.getD 1 "") c.time).map Prod.fst =
          d0.map Prod.fst := keys_of_skeleton hskS2
      by_cases hsave : (detect_collisions step (valuesOf S)).length < bc
      · have heq : resolveLoop step (n + 1) S bc bs obs =
            resolveLoop step n (applyDelayTo S (c.agents.getD 1 "") c.time)
              ((detect_collisions step (valuesOf S)).length) S
              (obs ++ [(detect_collisions step (valuesOf S)).length]) := by
          rw [resolveLoop_succ, hvc, if_pos hsave, if_pos hsave]
        rw [heq]
        refine ih _ _ _ _ hskS2 h1 ?_ ?_
        · have hcongr : restoreBest (applyDelayTo S (c.agents.getD 1 "") c.time) S =
              restoreBest S S := by
            refine restoreBest_congr ?_ ?_
            · rw [applyDelayTo_skeleton]
            · intro k hk
              rw [hkeysS2, ← hkeysS] at hk
              exact pyDictFind_isSome_of_mem_keys hk
          rw [hcongr, restoreBest_self (hkeysS ▸ hnd)]
        · intro m hm
          rcases List.mem_append.mp hm with hm | hm
          · exact le_trans (le_of_lt hsave) (h4 m hm)
          · simp only [List.mem_singleton] at hm
            exact hm ▸ le_refl _
      · have heq : resolveLoop step (n + 1) S bc bs obs =
            resolveLoop step n (applyDelayTo S (c.agents.getD 1 "") c.time)
              bc bs (obs ++ [(detect_collisions step (valuesOf S)).length]) := by
          rw [resolveLoop_succ, hvc, if_neg hsave, if_neg hsave]
        rw [heq]
        refine ih _ _ _ _ hskS2 h2 ?_ ?_
        · have hcongr : restoreBest (applyDelayTo S (c.agents.getD 1 "") c.time) bs =
              restoreBest S bs := by
            refine restoreBest_congr ?_ ?_
            · rw [applyDelayTo_skeleton]
            · intro k hk
              rw [hkeysS2, ← hkeysbs] at hk
              exact pyDictFind_isSome_of_mem_keys hk
          rw [hcongr]
          exact h3
        · intro m hm
          rcases List.mem_append.mp hm with hm | hm
          · exact h4 m hm
          · simp only [List.mem_singleton] at hm
            exact hm ▸ not_lt.mp hsave

/-- C5: the routes returned by `resolve_with_delays` have a
detected-conflict count no larger than any conflict count observed
during its own run (the initial state and every loop-head recount): if
the post-loop state is worse than the best observed, the best state is
restored by value, and re-detection on the restored routes reproduces
the best count. -/
theorem c5_rollback_bound (step : ℚ) (rr : List RouteResult) :
    ∀ m ∈ observedCounts step rr,
      (detect_collisions step (resolve_with_delays step rr)).length ≤ m := by
  intro m hm
  have hnd := resultsById_keys_nodup rr
  have hinv := resolveLoop_invariant step (resultsById rr) hnd MAX_ITERATIONS
    (resultsById rr) (resultsById rr)
    ((detect_collisions step (valuesOf (resultsById rr))).length)
    [(detect_collisions step (valuesOf (resultsById rr))).length]
    rfl rfl
    (by rw [restoreBest_self hnd])
    (by intro x hx; simp only [List.mem_singleton] at hx; exact hx ▸ le_refl _)
  obtain ⟨hs1, hs2, hcount, hmin⟩ := hinv
  unfold observedCounts at hm
  dsimp only at hm
  unfold resolve_with_delays
  dsimp only
  by_cases hgt : (detect_collisions step (valuesOf
      (resolveLoop step MAX_ITERATIONS (resultsById rr)
        ((detect_collisions step (valuesOf (resultsById rr))).length)
        (resultsById rr)
        [(detect_collisions step (valuesOf (resultsById rr))).length]).1)).length >
      (resolveLoop step MAX_ITERATIONS (resultsById rr)
        ((detect_collisions step (valuesOf (resultsById rr))).length)
        (resultsById rr)
        [(detect_collisions step (valuesOf (resultsById rr))).length]).2.1
  · rw [if_pos hgt, hcount]
    have h := hmin m hm
    rwa [min_eq_left (le_of_lt hgt)] at h
  · rw [if_neg hgt]
    have h := hmin m hm
    rwa [min_eq_right (not_lt.mp hgt)] at h

/-- C5 (witness): on the demonstration routes the observed counts are
`[1, 1, 0]`; the returned routes have 0 detected conflicts, below the
observed count 1. -/
theorem c5_witness :
    1 ∈ observedCounts 10 demoRoutes ∧
    (detect_collisions 10 (resolve_with_delays 10 demoRoutes)).length ≤ 1 := by
  have hm : 1 ∈ observedCounts 10 demoRoutes := by with_unfolding_all decide
  exact ⟨hm, c5_rollback_bound 10 demoRoutes 1 hm⟩
